import Mathlib

/-!
Verification of the deduction-ai repository's streaming decoder, chat
transcript assembler, and session state machine, shallowly embedded from
the TypeScript sources (`src/App.tsx`, `src/components/GameScreen.tsx`,
`src/components/GameScreen/ChatInputArea.tsx`, `src/types.ts`).

JavaScript strings are modelled as `List Char`; `String.prototype.split`
with a one-character separator, `String.prototype.trim`, and template
concatenation are embedded as executable Lean functions below.  `JSON.parse`
is external to the repository and is modelled as a parameter
`parse : List Char → Except String J` (a throw becomes `Except.error`).
-/

namespace Deduction

/-- The record separator `"\u001E"` (`STREAM_CHUNK_DELIMITER` in `App.tsx`). -/
def streamChunkDelimiter : Char := '\x1E'

/-- Prepend a character onto the first part of a split result (used by the
recursive embedding of `split`; the empty case never arises). -/
def consHead (c : Char) : List (List Char) → List (List Char)
  | [] => [[c]]
  | p :: ps => (c :: p) :: ps

/-- Embeds `s.split(d)` for a one-character separator `d`: JavaScript's
`split` always returns at least one (possibly empty) part. -/
def jsSplitChar (d : Char) : List Char → List (List Char)
  | [] => [[]]
  | c :: cs =>
    if c = d then [] :: jsSplitChar d cs else consHead c (jsSplitChar d cs)

/-- Embeds `s.trim()`: surrounding whitespace removed from both ends. -/
def jsTrim (l : List Char) : List Char :=
  ((l.dropWhile Char.isWhitespace).reverse.dropWhile Char.isWhitespace).reverse

/-- `true` exactly on `Except.ok`. -/
def isOkB {J : Type} : Except String J → Bool
  | Except.ok _ => true
  | Except.error _ => false

/-- The payload of an `Except.ok`, if any. -/
def okValue? {J : Type} : Except String J → Option J
  | Except.ok j => some j
  | Except.error _ => none

/-- The per-segment emission step shared by the decoding loop of
`handleModelRun` (App.tsx, the async generator): each complete segment is
trimmed, skipped when empty after trimming, and otherwise parsed; a parse
failure is raised and terminates the sequence.  Returns the yielded records
together with the decode error, if one occurred. -/
def emitSegs {J : Type} (parse : List Char → Except String J) :
    List (List Char) → List J × Option String
  | [] => ([], none)
  | s :: rest =>
    let t := jsTrim s
    if t = [] then emitSegs parse rest
    else
      match parse t with
      | Except.ok j =>
        let r := emitSegs parse rest
        (j :: r.1, r.2)
      | Except.error e => ([], some e)

/-- The decoding loop of the async generator in `handleModelRun` (App.tsx):
the buffer accumulates fragments, the complete segments before the last
delimiter are emitted, the remainder after the last delimiter becomes the
new buffer, and on end-of-stream a buffer that is non-empty after trimming
is parsed and yielded as a final record. -/
def decodeLoop {J : Type} (parse : List Char → Except String J) :
    List Char → List (List Char) → List J × Option String
  | buffer, [] =>
    let t := jsTrim buffer
    if t = [] then ([], none)
    else
      match parse t with
      | Except.ok j => ([j], none)
      | Except.error e => ([], some e)
  | buffer, f :: fs =>
    let parts := jsSplitChar streamChunkDelimiter (buffer ++ f)
    let segs := parts.dropLast
    let newBuffer := parts.getLastD []
    match emitSegs parse segs with
    | (js, some e) => (js, some e)
    | (js, none) =>
      let r := decodeLoop parse newBuffer fs
      (js ++ r.1, r.2)

/-- The decoder sequence produced by `handleModelRun` for a chunked stream:
the generator starts with an empty buffer. -/
def decodeFragments {J : Type} (parse : List Char → Except String J)
    (frags : List (List Char)) : List J × Option String :=
  decodeLoop parse [] frags

/-- Spec-side description (§4.1/§8 "Decoder framing"): split the whole
concatenation on the delimiter and parse every segment that is non-empty
after trimming, in order. -/
def specSegmentRecords {J : Type} (parse : List Char → Except String J)
    (s : List Char) : List J :=
  (jsSplitChar streamChunkDelimiter s).filterMap fun seg =>
    if jsTrim seg = [] then none else okValue? (parse (jsTrim seg))

/-- Spec-side hypothesis: every segment of the concatenation that is
non-empty after trimming is well-formed (parses successfully). -/
def wellFormedStream {J : Type} (parse : List Char → Except String J)
    (s : List Char) : Prop :=
  ∀ seg ∈ jsSplitChar streamChunkDelimiter s,
    jsTrim seg ≠ [] → isOkB (parse (jsTrim seg)) = true

/-- `consFirst x r` prepends `x` onto the first part of `r`. -/
def consFirst (x : List Char) : List (List Char) → List (List Char)
  | [] => [x]
  | p :: ps => (x ++ p) :: ps

/-- How the split of a concatenation combines the splits of its halves. -/
def splitCombine (r₁ r₂ : List (List Char)) : List (List Char) :=
  r₁.dropLast ++ consFirst (r₁.getLastD []) r₂

/-- Roles of a `ChatMessage` (src/types.ts). -/
inductive Role where
  | user
  | assistant
  | thinking
deriving DecidableEq

/-- A transcript entry (src/types.ts `ChatMessage`); the string ids
(`user-…`, `assistant-…`, `thinking-…`, `error-…`, all distinct) are
modelled by a counter, and the optional `isThinking` flag by `Option Bool`. -/
structure ChatMessage where
  id : Nat
  role : Role
  content : String
  isThinking : Option Bool
deriving DecidableEq

/-- One parsed stream chunk as dispatched by `handleSendMessageToModel`
(GameScreen.tsx): an object with optional `type`, `delta` and `error`
fields, or a non-object chunk (logged with `console.warn` and ignored).
The `error` payload's template interpolation is abstracted as a string. -/
inductive StreamChunk where
  | obj (type : Option String) (delta : Option String) (err : Option String)
  | nonObj
deriving DecidableEq

/-- JavaScript `x || ""` on an optional string field. -/
def jsOrEmpty : Option String → String
  | some s => s
  | none => ""

/-- JavaScript interpolation of a possibly-undefined value. -/
def jsUndef : Option String → String
  | some s => s
  | none => "undefined"

/-- JavaScript `typedChunk.error || typedChunk.delta` inside the error
template: a truthy `error` field wins, otherwise the `delta` field. -/
def jsErrorOrDelta : Option String → Option String → String
  | some e, d => if e = "" then jsUndef d else e
  | none, d => jsUndef d

/-- The mutable locals of one chat turn in `handleSendMessageToModel`
(GameScreen.tsx) together with the transcript: `chatMessages`,
`currentAssistantMessage`, `thinkingMessageId`, and the id counter. -/
structure TurnState where
  messages : List ChatMessage
  currentAssistantMessage : String
  thinkingMessageId : Option Nat
  nextId : Nat
deriving DecidableEq

/-- One iteration of the `for await` loop in `handleSendMessageToModel`
(GameScreen.tsx): dispatch on the chunk's `type` field.  The returned
`Bool` is true exactly when the loop `break`s (after an `"error"` chunk). -/
def stepChunk (assistantResponseId : Nat) (st : TurnState) (c : StreamChunk) :
    TurnState × Bool :=
  match c with
  | StreamChunk.nonObj => (st, false)
  | StreamChunk.obj type delta err =>
    if type = some "thinking" then
      let thinkingContent := jsOrEmpty delta
      match st.thinkingMessageId with
      | none =>
        let tid := st.nextId
        ({ st with
            messages := st.messages ++
              [{ id := tid, role := Role.thinking, content := thinkingContent,
                 isThinking := some true }],
            thinkingMessageId := some tid,
            nextId := st.nextId + 1 }, false)
      | some tid =>
        ({ st with
            messages := st.messages.map fun m =>
              if m.id = tid then
                { m with content := m.content ++ thinkingContent,
                         isThinking := some true }
              else m }, false)
    else if type = some "text" then
      let contentPart := jsOrEmpty delta
      let newAssistant := st.currentAssistantMessage ++ contentPart
      let sealed : List ChatMessage :=
        match st.thinkingMessageId with
        | some tid =>
          st.messages.map fun (m : ChatMessage) =>
            if m.id = tid then { m with isThinking := some false } else m
        | none => st.messages
      let thinkingIdNow : Option Nat := none
      let appended : List ChatMessage :=
        (sealed.filter fun (m : ChatMessage) => !(some m.id == thinkingIdNow)) ++
          [{ id := assistantResponseId, role := Role.assistant,
             content := newAssistant, isThinking := none }]
      let updated : List ChatMessage :=
        match sealed.getLast? with
        | some lastMsg =>
          if lastMsg.id = assistantResponseId ∧ lastMsg.role = Role.assistant then
            sealed.map fun (m : ChatMessage) =>
              if m.id = assistantResponseId then { m with content := newAssistant }
              else m
          else appended
        | none => appended
      ({ st with messages := updated, currentAssistantMessage := newAssistant,
                 thinkingMessageId := thinkingIdNow }, false)
    else if type = some "error" then
      let content := "Error from AI: " ++ jsErrorOrDelta err delta
      let msgs1 := st.messages ++
        [{ id := st.nextId, role := Role.assistant, content := content,
           isThinking := none }]
      let msgs2 :=
        match st.thinkingMessageId with
        | some tid =>
          msgs1.map fun m =>
            if m.id = tid then { m with isThinking := some false } else m
        | none => msgs1
      ({ st with messages := msgs2, thinkingMessageId := none,
                 nextId := st.nextId + 1 }, true)
    else (st, false)

/-- The `for await` loop: chunks are processed in arrival order until the
stream ends or a step `break`s. -/
def processChunks (assistantResponseId : Nat) :
    TurnState → List StreamChunk → TurnState
  | st, [] => st
  | st, c :: cs =>
    match stepChunk assistantResponseId st c with
    | (st', true) => st'
    | (st', false) => processChunks assistantResponseId st' cs

/-- The `finally` block of `handleSendMessageToModel`: a still-open
thinking entry is sealed. -/
def finalizeTurn (st : TurnState) : TurnState :=
  match st.thinkingMessageId with
  | some tid =>
    { st with messages := st.messages.map fun m =>
        if m.id = tid then { m with isThinking := some false } else m }
  | none => st

/-- `handleSendMessageToModel` (GameScreen.tsx): empty input returns
unchanged; otherwise the just-sent user message is appended and the
stream's records are folded into the transcript. -/
def handleSendMessageToModel (messages : List ChatMessage) (nextId : Nat)
    (userInput : String) (chunks : List StreamChunk) : TurnState :=
  if jsTrim userInput.toList = [] then
    { messages := messages, currentAssistantMessage := "",
      thinkingMessageId := none, nextId := nextId }
  else
    let newUserMessage : ChatMessage :=
      { id := nextId, role := Role.user, content := userInput, isThinking := none }
    let assistantResponseId := nextId + 1
    finalizeTurn (processChunks assistantResponseId
      { messages := messages ++ [newUserMessage], currentAssistantMessage := "",
        thinkingMessageId := none, nextId := nextId + 2 } chunks)

/-- The request message list built in `handleSendMessageToModel`
(GameScreen.tsx): the transcript plus the just-sent user message,
restricted to the user/assistant roles, projected to role/content pairs. -/
def messagesForApi (chatMessages : List ChatMessage) (newUserMessage : ChatMessage) :
    List (Role × String) :=
  ((chatMessages ++ [newUserMessage]).filter fun m =>
      m.role == Role.user || m.role == Role.assistant).map fun m => (m.role, m.content)

/-- Spec-side description of the chat request payload: the transcript's
entries with the thinking role removed, in order. -/
def specApiMessages (transcript : List ChatMessage) : List (Role × String) :=
  (transcript.filter fun m => !(m.role == Role.thinking)).map fun m => (m.role, m.content)

/-- src/types.ts `User`. -/
structure User where
  id : String
  name : String
  current_stage : Nat
deriving DecidableEq

/-- src/types.ts `Question`. -/
structure Question where
  id : String
  prompt : String
deriving DecidableEq

/-- src/types.ts `ModelOptionDetail`. -/
structure ModelOptionDetail where
  name : String
  display_name : String
  thinking : Bool
deriving DecidableEq

/-- src/types.ts `ModelInfo`. -/
structure ModelInfo where
  default : String
  options : List ModelOptionDetail
deriving DecidableEq

/-- src/types.ts `JoinResponse`. -/
structure JoinResponse where
  user : User
  question : Option Question
deriving DecidableEq

/-- src/types.ts `AttemptResponse`. -/
structure AttemptResponse where
  correct : Bool
  victory : Bool
  question : Option Question
  message : Option String
deriving DecidableEq

/-- src/types.ts `MAX_STAGES`. -/
def MAX_STAGES : Nat := 3

/-- src/types.ts `GameView`. -/
inductive GameView where
  | loading
  | joining
  | playing
  | victory
  | error
  | attemptingAutoJoin
deriving DecidableEq

/-- The React state of `App` (App.tsx), together with the browser's
localStorage entry for `deductionGameUserName`. -/
structure AppState where
  currentUser : Option User
  currentQuestion : Option Question
  models : Option ModelInfo
  currentView : GameView
  isLoading : Bool
  isAttemptingAutoJoin : Bool
  error : Option String
  isJoinDialogOpen : Bool
  actionLoading : Bool
  snackbarOpen : Bool
  snackbarMessage : String
  persistedUserName : Option String
  isNewGameMode : Bool
  localStorageName : Option String
deriving DecidableEq

/-- `handleJoinGame` (App.tsx): name validation and the state updates for
a completed or failed join call; the fetch's outcome is passed in as
`joinResult`.  `startNew` only affects the request body
(`startNew || isNewGameMode`), not the state.  Returns the new state and
the function's boolean result. -/
def handleJoinGame (st : AppState) (name : String) (startNew isAutoAttempt : Bool)
    (joinResult : Except String JoinResponse) : AppState × Bool :=
  if jsTrim name.toList = [] then
    (if !isAutoAttempt then { st with error := some "Please enter a name." } else st,
     false)
  else
    let st1 := if !isAutoAttempt then { st with actionLoading := true } else st
    let st2 := { st1 with error := none }
    match joinResult with
    | Except.ok data =>
      let st3 := { st2 with
        currentUser := some data.user,
        currentQuestion := data.question,
        localStorageName := some data.user.name,
        persistedUserName := some data.user.name }
      let st4 :=
        if data.user.current_stage > MAX_STAGES then
          { st3 with currentView := GameView.victory }
        else if data.question.isSome then
          { st3 with currentView := GameView.playing }
        else
          { st3 with currentView := GameView.victory }
      let st5 := { st4 with isJoinDialogOpen := false, isNewGameMode := false }
      let st6 := if !isAutoAttempt then { st5 with actionLoading := false } else st5
      (st6, true)
    | Except.error msg =>
      let st3 := { st2 with error := some msg }
      let st4 :=
        if isAutoAttempt then
          { st3 with localStorageName := none, persistedUserName := none }
        else
          { st3 with snackbarOpen := true,
                     snackbarMessage := "Failed to join: " ++ msg }
      let st5 := if !isAutoAttempt then { st4 with actionLoading := false } else st4
      (st5, false)

/-- The `initializeApp` effect (App.tsx): load the model metadata, then
auto-rejoin with a persisted display name when one is present (JavaScript
truthiness: an empty persisted string is falsy and skips the attempt).
The two external call results are passed in as parameters. -/
def initApp (st0 : AppState) (modelsResult : Except String ModelInfo)
    (joinResult : Except String JoinResponse) : AppState :=
  let st := { st0 with
    isLoading := true, isAttemptingAutoJoin := false, error := none,
    currentUser := none, models := none, currentView := GameView.loading }
  match modelsResult with
  | Except.error msg =>
    let st1 := { st with
      error := some msg, currentView := GameView.error,
      snackbarOpen := true, snackbarMessage := "App Error: " ++ msg }
    { st1 with isLoading := false, isAttemptingAutoJoin := false }
  | Except.ok m =>
    let st1 := { st with models := some m }
    match st1.localStorageName with
    | some savedName =>
      if savedName = "" then
        { st1 with currentView := GameView.joining, isJoinDialogOpen := true,
                   isLoading := false, isAttemptingAutoJoin := false }
      else
        let st2 := { st1 with
          persistedUserName := some savedName,
          isAttemptingAutoJoin := true,
          currentView := GameView.attemptingAutoJoin }
        let res := handleJoinGame st2 savedName false true joinResult
        let st3 :=
          if res.2 then res.1
          else { res.1 with currentView := GameView.joining,
                            isJoinDialogOpen := true }
        { st3 with isLoading := false, isAttemptingAutoJoin := false }
    | none =>
      { st1 with currentView := GameView.joining, isJoinDialogOpen := true,
                 isLoading := false, isAttemptingAutoJoin := false }

/-- `handleSubmitAttempt` (App.tsx): the guard, the attempt call (its
outcome passed in as `respResult`), and the state updates for the
correct/victory/incorrect outcomes.  Returns the new state and whether
the handler completed without throwing. -/
def handleSubmitAttempt (st : AppState) (respResult : Except String AttemptResponse) :
    AppState × Bool :=
  match st.currentUser, st.currentQuestion with
  | some u, some _ =>
    let st1 := { st with actionLoading := true, error := none }
    match respResult with
    | Except.ok data =>
      let st2 :=
        if data.correct then
          let stc := { st1 with
            currentUser := some { u with current_stage := u.current_stage + 1 } }
          if data.victory then
            { stc with currentView := GameView.victory, currentQuestion := none }
          else
            { stc with currentQuestion := data.question,
                       currentView := GameView.playing }
        else
          match data.question with
          | some q => { st1 with currentQuestion := some q }
          | none => st1
      ({ st2 with actionLoading := false }, true)
    | Except.error msg =>
      ({ st1 with
          error := some msg, snackbarOpen := true,
          snackbarMessage := "Error submitting answer: " ++ msg,
          actionLoading := false }, false)
  | _, _ =>
    let msg := "User or question not available for submission."
    ({ st with
        error := some msg, snackbarOpen := true,
        snackbarMessage := "Error: " ++ msg }, false)

/-- The send button's `disabled` condition in `ChatInputArea`
(`isSending || !userInput.trim()`). -/
def sendButtonDisabled (isSending : Bool) (userInput : String) : Bool :=
  isSending || (jsTrim userInput.toList == [])

/-- The chat input's `disabled` condition in `ChatInputArea`. -/
def chatInputDisabled (isSending : Bool) : Bool := isSending

/-- The Enter-key guard in `ChatInputArea`'s `onKeyDown`
(`e.key === "Enter" && !e.shiftKey && !isSending`). -/
def enterKeySends (isSending shiftKey : Bool) : Bool := !shiftKey && !isSending

/-- `handleSend`'s empty-input guard in `ChatInputArea`. -/
def handleSendFires (userInput : String) : Bool := !(jsTrim userInput.toList == [])

/-- User interactions relevant to starting or finishing a chat turn. -/
inductive UiEvent where
  | pressSend (input : String)
  | pressEnter (input : String) (shiftKey : Bool)
  | turnDone
deriving DecidableEq

/-- `GameScreen`'s `isModelStreaming` flag together with the number of
outstanding model-run calls for the current transcript. -/
structure UiSendState where
  isModelStreaming : Bool
  inFlight : Nat
deriving DecidableEq

/-- Send gating semantics derived from `ChatInputArea` and `GameScreen`:
a disabled control produces no send; an allowed send sets
`isModelStreaming` (GameScreen.tsx `setIsModelStreaming(true)`) and starts
one model-run call; a finished turn clears the flag (the `finally` block)
and retires the call. -/
def uiStep (s : UiSendState) (e : UiEvent) : UiSendState :=
  match e with
  | UiEvent.pressSend input =>
    if sendButtonDisabled s.isModelStreaming input then s
    else { isModelStreaming := true, inFlight := s.inFlight + 1 }
  | UiEvent.pressEnter input shiftKey =>
    if enterKeySends s.isModelStreaming shiftKey && handleSendFires input then
      { isModelStreaming := true, inFlight := s.inFlight + 1 }
    else s
  | UiEvent.turnDone =>
    if s.isModelStreaming then
      { isModelStreaming := false, inFlight := s.inFlight - 1 }
    else s

/-- A whole interaction history, starting idle. -/
def uiRun (events : List UiEvent) : UiSendState :=
  events.foldl uiStep { isModelStreaming := false, inFlight := 0 }

/-- A sample user, used to instantiate the session-controller theorems. -/
def sampleUser : User :=
  { id := "u1", name := "Ada", current_stage := 1 }

/-- A sample model list, used to instantiate the session-controller
theorems. -/
def sampleModels : ModelInfo :=
  { default := "m", options := [{ name := "m", display_name := "M", thinking := false }] }

/-- A sample in-game state (Playing, stage 1, question held). -/
def samplePlayingState : AppState :=
  { currentUser := some sampleUser,
    currentQuestion := some { id := "q1", prompt := "p1" },
    models := some sampleModels,
    currentView := GameView.playing,
    isLoading := false, isAttemptingAutoJoin := false, error := none,
    isJoinDialogOpen := false, actionLoading := false,
    snackbarOpen := false, snackbarMessage := "",
    persistedUserName := some "Ada", isNewGameMode := false,
    localStorageName := some "Ada" }

/-- A sample correct, non-victory attempt response carrying the next
question. -/
def sampleCorrectResponse : AttemptResponse :=
  { correct := true, victory := false,
    question := some { id := "q2", prompt := "p2" }, message := none }

/-- A sample correct, victory attempt response. -/
def sampleVictoryResponse : AttemptResponse :=
  { correct := true, victory := true, question := none, message := none }

/-- A sample pre-initialization state with a persisted display name. -/
def sampleInitState : AppState :=
  { currentUser := none, currentQuestion := none, models := none,
    currentView := GameView.loading,
    isLoading := true, isAttemptingAutoJoin := false, error := none,
    isJoinDialogOpen := false, actionLoading := false,
    snackbarOpen := false, snackbarMessage := "",
    persistedUserName := none, isNewGameMode := false,
    localStorageName := some "Ada" }

theorem consHead_ne_nil (c : Char) (r : List (List Char)) : consHead c r ≠ [] := by
  cases r <;> simp [consHead]

theorem jsSplitChar_ne_nil (d : Char) (l : List Char) : jsSplitChar d l ≠ [] := by
  induction l with
  | nil => simp [jsSplitChar]
  | cons c cs ih =>
    simp only [jsSplitChar]
    split
    · simp
    · exact consHead_ne_nil c _

theorem not_delim_mem_jsSplitChar (d : Char) (l : List Char) :
    ∀ s ∈ jsSplitChar d l, d ∉ s := by
  induction l with
  | nil =>
    intro s hs
    simp only [jsSplitChar, List.mem_singleton] at hs
    simp [hs]
  | cons c cs ih =>
    intro s hs
    simp only [jsSplitChar] at hs
    by_cases hc : c = d
    · rw [if_pos hc] at hs
      rcases List.mem_cons.mp hs with h | h
      · simp [h]
      · exact ih s h
    · rw [if_neg hc] at hs
      cases hsplit : jsSplitChar d cs with
      | nil => exact absurd hsplit (jsSplitChar_ne_nil d cs)
      | cons p ps =>
        rw [hsplit] at hs
        have hch : consHead c (p :: ps) = (c :: p) :: ps := rfl
        rw [hch] at hs
        rcases List.mem_cons.mp hs with h | h
        · subst h
          intro hmem
          rcases List.mem_cons.mp hmem with h | h
          · exact hc h.symm
          · exact ih p (by rw [hsplit]; exact List.mem_cons_self p ps) h
        · exact ih s (by rw [hsplit]; exact List.mem_cons_of_mem p h)

theorem jsSplitChar_of_not_mem (d : Char) (l : List Char) (h : d ∉ l) :
    jsSplitChar d l = [l] := by
  induction l with
  | nil => rfl
  | cons c cs ih =>
    have hc : ¬ c = d := fun hcd => h (hcd ▸ List.mem_cons_self c cs)
    have hcs : d ∉ cs := fun hm => h (List.mem_cons_of_mem c hm)
    simp only [jsSplitChar, if_neg hc, ih hcs]
    rfl

theorem getLastD_cons_of_ne_nil {x : List Char} {r : List (List Char)} (h : r ≠ []) :
    (x :: r).getLastD [] = r.getLastD [] := by
  cases r with
  | nil => exact absurd rfl h
  | cons y ys => simp [List.getLastD_eq_getLast?, List.getLast?_cons_cons]

theorem splitCombine_cons {x : List Char} {r r₂ : List (List Char)} (h : r ≠ []) :
    splitCombine (x :: r) r₂ = x :: splitCombine r r₂ := by
  unfold splitCombine
  rw [List.dropLast_cons_of_ne_nil h, getLastD_cons_of_ne_nil h, List.cons_append]

theorem consHead_consFirst (c : Char) (x : List Char) (r : List (List Char)) :
    consHead c (consFirst x r) = consFirst (c :: x) r := by
  cases r <;> simp [consHead, consFirst]

theorem splitCombine_single (p : List Char) (r₂ : List (List Char)) :
    splitCombine [p] r₂ = consFirst p r₂ := rfl

theorem consHead_splitCombine (c : Char) {r₁ : List (List Char)}
    (r₂ : List (List Char)) (h : r₁ ≠ []) :
    consHead c (splitCombine r₁ r₂) = splitCombine (consHead c r₁) r₂ := by
  match r₁ with
  | [] => exact absurd rfl h
  | [p] =>
    rw [splitCombine_single, consHead_consFirst]
    rfl
  | p :: p' :: ps' =>
    have h2 : p' :: ps' ≠ [] := List.cons_ne_nil p' ps'
    rw [splitCombine_cons h2]
    have e1 : consHead c (p :: splitCombine (p' :: ps') r₂) =
        (c :: p) :: splitCombine (p' :: ps') r₂ := rfl
    have e2 : consHead c (p :: p' :: ps') = (c :: p) :: p' :: ps' := rfl
    rw [e1, e2, splitCombine_cons h2]

theorem jsSplitChar_append (d : Char) (a b : List Char) :
    jsSplitChar d (a ++ b) = splitCombine (jsSplitChar d a) (jsSplitChar d b) := by
  induction a with
  | nil =>
    rw [List.nil_append]
    have h1 : jsSplitChar d ([] : List Char) = [[]] := rfl
    rw [h1, splitCombine_single]
    cases hb : jsSplitChar d b with
    | nil => exact absurd hb (jsSplitChar_ne_nil d b)
    | cons q qs => simp [consFirst]
  | cons c a' ih =>
    rw [List.cons_append]
    by_cases hc : c = d
    · have h1 : jsSplitChar d (c :: (a' ++ b)) = [] :: jsSplitChar d (a' ++ b) := by
        simp [jsSplitChar, hc]
      have h2 : jsSplitChar d (c :: a') = [] :: jsSplitChar d a' := by
        simp [jsSplitChar, hc]
      rw [h1, h2, ih, splitCombine_cons (jsSplitChar_ne_nil d a')]
    · have h1 : jsSplitChar d (c :: (a' ++ b)) = consHead c (jsSplitChar d (a' ++ b)) := by
        simp [jsSplitChar, hc]
      have h2 : jsSplitChar d (c :: a') = consHead c (jsSplitChar d a') := by
        simp [jsSplitChar, hc]
      rw [h1, h2, ih, consHead_splitCombine c _ (jsSplitChar_ne_nil d a')]

theorem getLastD_mem_of_ne_nil (l : List (List Char)) (h : l ≠ []) :
    l.getLastD [] ∈ l := by
  match l with
  | [] => exact absurd rfl h
  | p :: ps =>
    rw [List.getLastD_cons]
    exact List.getLastD_mem_cons ps p

theorem emitSegs_append {J : Type} (parse : List Char → Except String J)
    (xs ys : List (List Char)) :
    emitSegs parse (xs ++ ys) =
      match emitSegs parse xs with
      | (js, some e) => (js, some e)
      | (js, none) =>
        (js ++ (emitSegs parse ys).1, (emitSegs parse ys).2) := by
  induction xs with
  | nil => simp [emitSegs]
  | cons s rest ih =>
    rw [List.cons_append]
    simp only [emitSegs]
    by_cases ht : jsTrim s = []
    · rw [if_pos ht, if_pos ht]
      exact ih
    · rw [if_neg ht, if_neg ht]
      cases hp : parse (jsTrim s) with
      | error e => simp
      | ok j =>
        rw [ih]
        cases he : emitSegs parse rest with
        | mk js e? =>
          cases e? with
          | none => simp
          | some e => simp

theorem decodeLoop_eq_emitSegs {J : Type} (parse : List Char → Except String J)
    (frags : List (List Char)) (buffer : List Char)
    (hbuf : streamChunkDelimiter ∉ buffer) :
    decodeLoop parse buffer frags =
      emitSegs parse (jsSplitChar streamChunkDelimiter (buffer ++ frags.flatten)) := by
  induction frags generalizing buffer with
  | nil =>
    rw [List.flatten_nil, List.append_nil,
      jsSplitChar_of_not_mem streamChunkDelimiter buffer hbuf]
    simp only [decodeLoop, emitSegs]
  | cons f fs ih =>
    have hparts := jsSplitChar_ne_nil streamChunkDelimiter (buffer ++ f)
    have hnewbuf : streamChunkDelimiter ∉
        (jsSplitChar streamChunkDelimiter (buffer ++ f)).getLastD [] :=
      not_delim_mem_jsSplitChar streamChunkDelimiter (buffer ++ f) _
        (getLastD_mem_of_ne_nil _ hparts)
    have hjoin : buffer ++ (f :: fs).flatten = (buffer ++ f) ++ fs.flatten := by
      rw [List.flatten_cons, List.append_assoc]
    rw [hjoin,
      jsSplitChar_append streamChunkDelimiter (buffer ++ f) fs.flatten]
    have hsingle : jsSplitChar streamChunkDelimiter
        ((jsSplitChar streamChunkDelimiter (buffer ++ f)).getLastD [] ++ fs.flatten) =
        consFirst ((jsSplitChar streamChunkDelimiter (buffer ++ f)).getLastD [])
          (jsSplitChar streamChunkDelimiter fs.flatten) := by
      rw [jsSplitChar_append streamChunkDelimiter
          ((jsSplitChar streamChunkDelimiter (buffer ++ f)).getLastD []) fs.flatten,
        jsSplitChar_of_not_mem streamChunkDelimiter _ hnewbuf, splitCombine_single]
    unfold splitCombine
    rw [← hsingle, emitSegs_append]
    simp only [decodeLoop]
    cases he : emitSegs parse
        ((jsSplitChar streamChunkDelimiter (buffer ++ f)).dropLast) with
    | mk js e? =>
      cases e? with
      | some e => simp
      | none =>
        rw [ih _ hnewbuf]

theorem decodeFragments_eq_emitSegs {J : Type} (parse : List Char → Except String J)
    (frags : List (List Char)) :
    decodeFragments parse frags =
      emitSegs parse (jsSplitChar streamChunkDelimiter frags.flatten) := by
  have h := decodeLoop_eq_emitSegs parse frags [] (by simp)
  rw [decodeFragments, h, List.nil_append]

theorem emitSegs_of_wellFormed {J : Type} (parse : List Char → Except String J)
    (segs : List (List Char))
    (h : ∀ seg ∈ segs, jsTrim seg ≠ [] → isOkB (parse (jsTrim seg)) = true) :
    emitSegs parse segs =
      (segs.filterMap fun seg =>
        if jsTrim seg = [] then none else okValue? (parse (jsTrim seg)), none) := by
  induction segs with
  | nil => simp [emitSegs]
  | cons s rest ih =>
    have hrest : ∀ seg ∈ rest, jsTrim seg ≠ [] → isOkB (parse (jsTrim seg)) = true :=
      fun seg hm => h seg (List.mem_cons_of_mem s hm)
    simp only [emitSegs, List.filterMap_cons]
    by_cases ht : jsTrim s = []
    · simp only [if_pos ht]
      exact ih hrest
    · have hok : isOkB (parse (jsTrim s)) = true := h s (List.mem_cons_self s rest) ht
      simp only [if_neg ht]
      cases hp : parse (jsTrim s) with
      | ok j => simp [ih hrest, okValue?]
      | error e =>
        rw [hp] at hok
        simp [isOkB] at hok

/-- Claim C1: for every sequence of arriving fragments whose
concatenation, split on the record separator U+001E, consists of segments
that are well-formed JSON after trimming (whitespace-only segments
contributing nothing), the decoder sequence of the model-run operation
yields exactly those parsed records in segment order, regardless of how
the concatenation is partitioned into fragments; a non-empty final
segment without a trailing delimiter is yielded as the final record and a
whitespace-only tail yields no extra record. -/
theorem decoder_framing {J : Type} (parse : List Char → Except String J)
    (frags : List (List Char)) (h : wellFormedStream parse frags.flatten) :
    decodeFragments parse frags = (specSegmentRecords parse frags.flatten, none) := by
  rw [decodeFragments_eq_emitSegs]
  exact emitSegs_of_wellFormed parse _ h

/-- Witness for C1 at a concrete chunking that splits mid-record: two
records plus a whitespace-only tail. -/
theorem decoder_framing_witness :
    wellFormedStream (fun t : List Char => (Except.ok t : Except String (List Char)))
        [['x'], ['\x1E'], ['y', '\x1E', ' ']].flatten ∧
    decodeFragments (fun t : List Char => (Except.ok t : Except String (List Char)))
        [['x'], ['\x1E'], ['y', '\x1E', ' ']] =
      (specSegmentRecords
        (fun t : List Char => (Except.ok t : Except String (List Char)))
        [['x'], ['\x1E'], ['y', '\x1E', ' ']].flatten, none) :=
  ⟨by unfold wellFormedStream; decide,
   decoder_framing (fun t : List Char => (Except.ok t : Except String (List Char)))
     [['x'], ['\x1E'], ['y', '\x1E', ' ']] (by unfold wellFormedStream; decide)⟩

/-- Claim C7: a segment that fails to parse as JSON (after trimming)
raises the decode error to the consumer at that segment and the sequence
terminates there: the malformed segment is not skipped and no record
after it is yielded. -/
theorem decoder_fatal {J : Type} (parse : List Char → Except String J)
    (frags : List (List Char)) (pre post : List (List Char)) (bad : List Char)
    (e : String)
    (hsplit : jsSplitChar streamChunkDelimiter frags.flatten = pre ++ bad :: post)
    (hpre : ∀ seg ∈ pre, jsTrim seg ≠ [] → isOkB (parse (jsTrim seg)) = true)
    (hbad : jsTrim bad ≠ []) (herr : parse (jsTrim bad) = Except.error e) :
    decodeFragments parse frags =
      (pre.filterMap fun seg =>
        if jsTrim seg = [] then none else okValue? (parse (jsTrim seg)), some e) := by
  rw [decodeFragments_eq_emitSegs, hsplit, emitSegs_append,
    emitSegs_of_wellFormed parse pre hpre]
  simp only [emitSegs, if_neg hbad, herr, List.append_nil]

/-- Witness for C7: the middle segment fails to parse, the first is
yielded, the last is not. -/
theorem decoder_fatal_witness :
    jsSplitChar streamChunkDelimiter [['x', '\x1E'], ['y'], ['\x1E', 'z']].flatten =
        [['x']] ++ ['y'] :: [['z']] ∧
    jsTrim ['y'] ≠ [] ∧
    decodeFragments
        (fun t : List Char =>
          if t = ['y'] then (Except.error "bad" : Except String (List Char))
          else Except.ok t)
        [['x', '\x1E'], ['y'], ['\x1E', 'z']] = ([['x']], some "bad") :=
  ⟨by decide, by decide,
   decoder_fatal
     (fun t : List Char =>
       if t = ['y'] then (Except.error "bad" : Except String (List Char))
       else Except.ok t)
     [['x', '\x1E'], ['y'], ['\x1E', 'z']] [['x']] [['z']] ['y'] "bad"
     (by decide) (by decide) (by decide) rfl⟩

/-- Claim C2: the assembler applied to
[thinking "a", thinking "b", text "X", text "Y"], from a transcript
holding exactly the just-sent user entry, yields
[user, thinking "ab" sealed, assistant "XY"]: consecutive thinking
fragments coalesce into one entry, the first text record seals it, and
consecutive text fragments concatenate into one assistant entry. -/
theorem assembler_coalescing :
    (handleSendMessageToModel [] 0 "hi"
      [StreamChunk.obj (some "thinking") (some "a") none,
       StreamChunk.obj (some "thinking") (some "b") none,
       StreamChunk.obj (some "text") (some "X") none,
       StreamChunk.obj (some "text") (some "Y") none]).messages =
      [{ id := 0, role := Role.user, content := "hi", isThinking := none },
       { id := 2, role := Role.thinking, content := "ab", isThinking := some false },
       { id := 1, role := Role.assistant, content := "XY", isThinking := none }] := by
  decide

/-- Claim C6: the assembler applied to [thinking "a", error "boom"] (and
any further records) from a transcript holding exactly the just-sent user
entry yields [user, thinking "a" sealed, assistant entry reporting the
failure]; records after the error record are never processed. -/
theorem assembler_error_truncation (rest : List StreamChunk) :
    (handleSendMessageToModel [] 0 "hi"
      ([StreamChunk.obj (some "thinking") (some "a") none,
        StreamChunk.obj (some "error") none (some "boom")] ++ rest)).messages =
      [{ id := 0, role := Role.user, content := "hi", isThinking := none },
       { id := 2, role := Role.thinking, content := "a", isThinking := some false },
       { id := 3, role := Role.assistant, content := "Error from AI: boom",
         isThinking := none }] := by
  rfl

/-- Claim C5 counterexample: a legacy delta-only record (type "delta") is
not processed as a "text" record is — the same fragment as a "text"
record appends an assistant entry, while the "delta" record leaves the
transcript unchanged. -/
theorem legacy_delta_counterexample :
    (handleSendMessageToModel [] 0 "hi"
      [StreamChunk.obj (some "delta") (some "X") none]).messages =
      [{ id := 0, role := Role.user, content := "hi", isThinking := none }] ∧
    (handleSendMessageToModel [] 0 "hi"
      [StreamChunk.obj (some "text") (some "X") none]).messages =
      [{ id := 0, role := Role.user, content := "hi", isThinking := none },
       { id := 1, role := Role.assistant, content := "X", isThinking := none }] := by
  exact ⟨by decide, by decide⟩

/-- Claim C5 amended: a stream record of the legacy delta-only shape
(type "delta") is ignored by the assembler: the turn state is unchanged
and processing continues — it neither seals a provisional thinking entry
nor contributes to the assistant entry. -/
theorem legacy_delta_ignored (assistantResponseId : Nat) (st : TurnState)
    (delta err : Option String) :
    stepChunk assistantResponseId st (StreamChunk.obj (some "delta") delta err) =
      (st, false) := by
  rfl

/-- Claim C3: a correct non-victory attempt response increments the held
stage by exactly 1, replaces the held puzzle with the returned question
and keeps the view Playing; an incorrect response leaves the stage
unchanged, and replaces the held puzzle only when the response carries a
question. -/
theorem stage_progression (st : AppState) (u : User) (resp : AttemptResponse)
    (hu : st.currentUser = some u) (hq : st.currentQuestion.isSome = true) :
    (resp.correct = true → resp.victory = false →
      ((handleSubmitAttempt st (Except.ok resp)).1.currentUser =
          some { u with current_stage := u.current_stage + 1 } ∧
        (handleSubmitAttempt st (Except.ok resp)).1.currentQuestion = resp.question ∧
        (handleSubmitAttempt st (Except.ok resp)).1.currentView = GameView.playing)) ∧
    (resp.correct = false →
      ((handleSubmitAttempt st (Except.ok resp)).1.currentUser = st.currentUser ∧
        (handleSubmitAttempt st (Except.ok resp)).1.currentQuestion =
          (match resp.question with
           | some q => some q
           | none => st.currentQuestion))) := by
  obtain ⟨q, hq'⟩ := Option.isSome_iff_exists.mp hq
  constructor
  · intro hc hv
    refine ⟨?_, ?_, ?_⟩ <;> simp [handleSubmitAttempt, hu, hq', hc, hv]
  · intro hc
    cases hrq : resp.question with
    | some q2 => exact ⟨by simp [handleSubmitAttempt, hu, hq', hc, hrq],
        by simp [handleSubmitAttempt, hu, hq', hc, hrq]⟩
    | none => exact ⟨by simp [handleSubmitAttempt, hu, hq', hc, hrq],
        by simp [handleSubmitAttempt, hu, hq', hc, hrq]⟩

/-- Witness for C3 at the sample Playing state and a correct non-victory
response carrying the next question. -/
theorem stage_progression_witness :
    samplePlayingState.currentUser = some sampleUser ∧
    samplePlayingState.currentQuestion.isSome = true ∧
    ((sampleCorrectResponse.correct = true → sampleCorrectResponse.victory = false →
      ((handleSubmitAttempt samplePlayingState
          (Except.ok sampleCorrectResponse)).1.currentUser =
          some { sampleUser with current_stage := sampleUser.current_stage + 1 } ∧
        (handleSubmitAttempt samplePlayingState
          (Except.ok sampleCorrectResponse)).1.currentQuestion =
          sampleCorrectResponse.question ∧
        (handleSubmitAttempt samplePlayingState
          (Except.ok sampleCorrectResponse)).1.currentView = GameView.playing)) ∧
     (sampleCorrectResponse.correct = false →
      ((handleSubmitAttempt samplePlayingState
          (Except.ok sampleCorrectResponse)).1.currentUser =
          samplePlayingState.currentUser ∧
        (handleSubmitAttempt samplePlayingState
          (Except.ok sampleCorrectResponse)).1.currentQuestion =
          (match sampleCorrectResponse.question with
           | some q => some q
           | none => samplePlayingState.currentQuestion)))) :=
  ⟨rfl, rfl, stage_progression samplePlayingState sampleUser sampleCorrectResponse rfl rfl⟩

/-- Claim C4 counterexample: at prior stage 1 (with MAX_STAGES = 3) a
correct victory response clears the puzzle and moves to Victory, but the
resulting held stage is 2, which does not exceed MAX_STAGES — the code
increments the stage by 1 on every correct attempt, victory included. -/
theorem victory_stage_counterexample :
    (handleSubmitAttempt samplePlayingState
      (Except.ok sampleVictoryResponse)).1.currentQuestion = none ∧
    (handleSubmitAttempt samplePlayingState
      (Except.ok sampleVictoryResponse)).1.currentView = GameView.victory ∧
    (handleSubmitAttempt samplePlayingState
      (Except.ok sampleVictoryResponse)).1.currentUser =
      some { id := "u1", name := "Ada", current_stage := 2 } ∧
    ¬ (2 > MAX_STAGES) :=
  ⟨rfl, rfl, by decide, by decide⟩

/-- Claim C4 amended: a correct victory attempt response clears the held
puzzle and moves the view to Victory for every prior stage value; the
held stage is incremented by exactly 1, so it exceeds MAX_STAGES exactly
when the prior stage was at least MAX_STAGES. -/
theorem victory_transition (st : AppState) (u : User) (resp : AttemptResponse)
    (hu : st.currentUser = some u) (hq : st.currentQuestion.isSome = true)
    (hc : resp.correct = true) (hv : resp.victory = true) :
    (handleSubmitAttempt st (Except.ok resp)).1.currentQuestion = none ∧
    (handleSubmitAttempt st (Except.ok resp)).1.currentView = GameView.victory ∧
    (handleSubmitAttempt st (Except.ok resp)).1.currentUser =
      some { u with current_stage := u.current_stage + 1 } ∧
    (u.current_stage + 1 > MAX_STAGES ↔ MAX_STAGES ≤ u.current_stage) := by
  obtain ⟨q, hq'⟩ := Option.isSome_iff_exists.mp hq
  refine ⟨?_, ?_, ?_, ?_⟩
  · simp [handleSubmitAttempt, hu, hq', hc, hv]
  · simp [handleSubmitAttempt, hu, hq', hc, hv]
  · simp [handleSubmitAttempt, hu, hq', hc, hv]
  · omega

/-- Witness for C4's amended claim at the sample Playing state. -/
theorem victory_transition_witness :
    samplePlayingState.currentUser = some sampleUser ∧
    samplePlayingState.currentQuestion.isSome = true ∧
    sampleVictoryResponse.correct = true ∧
    sampleVictoryResponse.victory = true ∧
    ((handleSubmitAttempt samplePlayingState
        (Except.ok sampleVictoryResponse)).1.currentQuestion = none ∧
      (handleSubmitAttempt samplePlayingState
        (Except.ok sampleVictoryResponse)).1.currentView = GameView.victory ∧
      (handleSubmitAttempt samplePlayingState
        (Except.ok sampleVictoryResponse)).1.currentUser =
        some { sampleUser with current_stage := sampleUser.current_stage + 1 } ∧
      (sampleUser.current_stage + 1 > MAX_STAGES ↔
        MAX_STAGES ≤ sampleUser.current_stage)) :=
  ⟨rfl, rfl, rfl, rfl,
   victory_transition samplePlayingState sampleUser sampleVictoryResponse rfl rfl rfl rfl⟩

/-- Claim C8: when a persisted display name exists at initialization and
the automatic rejoin call fails, the persisted name is removed from
storage, the controller ends in Joining with the join dialog open, and
the failure is not surfaced on the user-visible error channel (the
snackbar is untouched and the error view is not entered). -/
theorem auto_rejoin_fallback (st0 : AppState) (m : ModelInfo) (n e : String)
    (hsaved : st0.localStorageName = some n) (hne : n ≠ "")
    (htrim : jsTrim n.toList ≠ []) :
    (initApp st0 (Except.ok m) (Except.error e)).localStorageName = none ∧
    (initApp st0 (Except.ok m) (Except.error e)).persistedUserName = none ∧
    (initApp st0 (Except.ok m) (Except.error e)).currentView = GameView.joining ∧
    (initApp st0 (Except.ok m) (Except.error e)).isJoinDialogOpen = true ∧
    (initApp st0 (Except.ok m) (Except.error e)).snackbarOpen = st0.snackbarOpen ∧
    (initApp st0 (Except.ok m) (Except.error e)).snackbarMessage = st0.snackbarMessage := by
  have htrim' : ¬ jsTrim n.data = [] := htrim
  refine ⟨?_, ?_, ?_, ?_, ?_, ?_⟩ <;>
    simp [initApp, handleJoinGame, hsaved, hne, htrim']

/-- Witness for C8 at a concrete pre-initialization state with the
persisted name "Ada" and a failing rejoin call. -/
theorem auto_rejoin_fallback_witness :
    sampleInitState.localStorageName = some "Ada" ∧
    "Ada" ≠ "" ∧
    jsTrim "Ada".toList ≠ [] ∧
    ((initApp sampleInitState (Except.ok sampleModels)
        (Except.error "boom")).localStorageName = none ∧
      (initApp sampleInitState (Except.ok sampleModels)
        (Except.error "boom")).persistedUserName = none ∧
      (initApp sampleInitState (Except.ok sampleModels)
        (Except.error "boom")).currentView = GameView.joining ∧
      (initApp sampleInitState (Except.ok sampleModels)
        (Except.error "boom")).isJoinDialogOpen = true ∧
      (initApp sampleInitState (Except.ok sampleModels)
        (Except.error "boom")).snackbarOpen = sampleInitState.snackbarOpen ∧
      (initApp sampleInitState (Except.ok sampleModels)
        (Except.error "boom")).snackbarMessage = sampleInitState.snackbarMessage) :=
  ⟨rfl, by decide, by decide,
   auto_rejoin_fallback sampleInitState sampleModels "Ada" "boom" rfl
     (by decide) (by decide)⟩

/-- Preservation of the streaming/in-flight invariant by one UI event. -/
theorem uiStep_invariant (s : UiSendState) (e : UiEvent)
    (h : s.inFlight = if s.isModelStreaming then 1 else 0) :
    (uiStep s e).inFlight = if (uiStep s e).isModelStreaming then 1 else 0 := by
  cases e with
  | pressSend input =>
    simp only [uiStep]
    by_cases hd : sendButtonDisabled s.isModelStreaming input = true
    · simpa [hd] using h
    · rw [Bool.not_eq_true] at hd
      have hs : s.isModelStreaming = false := by
        revert hd
        unfold sendButtonDisabled
        cases s.isModelStreaming <;> simp
      rw [hs] at h
      simp at h
      simp [hd, h]
  | pressEnter input shiftKey =>
    simp only [uiStep]
    by_cases hg : (enterKeySends s.isModelStreaming shiftKey &&
        handleSendFires input) = true
    · have hs : s.isModelStreaming = false := by
        revert hg
        unfold enterKeySends
        cases s.isModelStreaming <;> simp
      rw [hs] at h
      simp at h
      simp [hg, h]
    · rw [Bool.not_eq_true] at hg
      simpa [hg] using h
  | turnDone =>
    simp only [uiStep]
    by_cases hs : s.isModelStreaming = true
    · rw [hs] at h
      simp at h
      simp [hs, h]
    · rw [Bool.not_eq_true] at hs
      rw [hs] at h
      simp at h
      simpa [hs] using h

/-- The streaming/in-flight invariant along any interaction history. -/
theorem uiRun_invariant (events : List UiEvent) :
    (uiRun events).inFlight = if (uiRun events).isModelStreaming then 1 else 0 := by
  have hgen : ∀ evs : List UiEvent, ∀ s : UiSendState,
      s.inFlight = (if s.isModelStreaming then 1 else 0) →
      (evs.foldl uiStep s).inFlight =
        if (evs.foldl uiStep s).isModelStreaming then 1 else 0 := by
    intro evs
    induction evs with
    | nil => intro s hs; exact hs
    | cons e rest ih =>
      intro s hs
      exact ih (uiStep s e) (uiStep_invariant s e hs)
  exact hgen events { isModelStreaming := false, inFlight := 0 } rfl

/-- Claim C9: while a model-run turn is streaming for the current
transcript, the chat input and send button are disabled and both send
paths are no-ops, so a new user message cannot be sent and at most one
model-run call is outstanding per transcript. -/
theorem single_streaming_turn (events : List UiEvent) (input : String)
    (shiftKey : Bool) (h : (uiRun events).isModelStreaming = true) :
    (uiRun events).inFlight ≤ 1 ∧
    uiStep (uiRun events) (UiEvent.pressSend input) = uiRun events ∧
    uiStep (uiRun events) (UiEvent.pressEnter input shiftKey) = uiRun events ∧
    chatInputDisabled (uiRun events).isModelStreaming = true ∧
    sendButtonDisabled (uiRun events).isModelStreaming input = true := by
  have hinv := uiRun_invariant events
  rw [h] at hinv
  simp at hinv
  refine ⟨by omega, ?_, ?_, ?_, ?_⟩
  · simp [uiStep, sendButtonDisabled, h]
  · simp [uiStep, enterKeySends, h]
  · simp [chatInputDisabled, h]
  · simp [sendButtonDisabled, h]

/-- Witness for C9 after one successful send has started streaming. -/
theorem single_streaming_turn_witness :
    (uiRun [UiEvent.pressSend "hello"]).isModelStreaming = true ∧
    ((uiRun [UiEvent.pressSend "hello"]).inFlight ≤ 1 ∧
      uiStep (uiRun [UiEvent.pressSend "hello"]) (UiEvent.pressSend "again") =
        uiRun [UiEvent.pressSend "hello"] ∧
      uiStep (uiRun [UiEvent.pressSend "hello"])
          (UiEvent.pressEnter "again" false) = uiRun [UiEvent.pressSend "hello"] ∧
      chatInputDisabled (uiRun [UiEvent.pressSend "hello"]).isModelStreaming = true ∧
      sendButtonDisabled (uiRun [UiEvent.pressSend "hello"]).isModelStreaming
        "again" = true) :=
  ⟨by decide, single_streaming_turn [UiEvent.pressSend "hello"] "again" false (by decide)⟩

/-- Claim C10: the message list sent to the model-run operation is exactly
the user- and assistant-role entries of the transcript together with the
just-sent user message, in transcript order; thinking-role entries are
never included in the request. -/
theorem api_messages_exact (chatMessages : List ChatMessage)
    (newUserMessage : ChatMessage) :
    messagesForApi chatMessages newUserMessage =
      specApiMessages (chatMessages ++ [newUserMessage]) ∧
    (messagesForApi chatMessages newUserMessage).all
      (fun p => !(p.1 == Role.thinking)) = true := by
  constructor
  · unfold messagesForApi specApiMessages
    congr 1
    apply List.filter_congr
    intro m _
    cases hr : m.role <;> simp
  · rw [List.all_eq_true]
    intro p hp
    unfold messagesForApi at hp
    rw [List.mem_map] at hp
    obtain ⟨m, hm, hpm⟩ := hp
    rw [List.mem_filter] at hm
    subst hpm
    cases hr : m.role <;> simp_all

end Deduction
